import Mathlib

/-!
A verification development for the retrieval core of the repository
(`app/rag_system.py`, class `RAGSystem`).

The external collaborators of the core — the sentence-transformer embedder
(`self.model.encode`), the langchain text splitter
(`RecursiveCharacterTextSplitter.split_text`) and faiss's row-wise
normalization (`faiss.normalize_L2`) — are modelled as function parameters,
since their code is not part of the repository; the faiss flat-L2 index
itself is modelled from the spec's Vector Index contract.  Floating-point
vectors are modelled as rational vectors.
-/

namespace RAG

/-- An embedding vector: models one float32 row vector with rational components. -/
abbrev Vec := List ℚ

/-- Squared Euclidean distance between two vectors: the metric used by
`faiss.IndexFlatL2`. -/
def sqDist (x y : Vec) : ℚ := (List.zipWith (fun a b => (a - b) ^ 2) x y).sum

/-- Metadata record for one chunk, as built in `RAGSystem.add_document`:
`{"text": chunk, "document_id": doc_id, "chunk_id": start_idx + i, "position": i}`. -/
structure ChunkMeta where
  text : String
  document_id : String
  chunk_id : Nat
  position : Nat
deriving DecidableEq, Repr

/-- Metadata record for one document, as built in `RAGSystem.add_document`:
`{"id": doc_id, "summary": summary, "timestamp": ..., "chunk_ids": [...]}`. -/
structure DocumentMeta where
  id : String
  summary : String
  timestamp : String
  chunk_ids : List Nat
deriving DecidableEq, Repr

/-- `RAGSystem.metadata`: the two ordered collections kept in
`document_metadata.json`. -/
structure Metadata where
  chunks : List ChunkMeta
  documents : List DocumentMeta
deriving DecidableEq, Repr

/-- In-memory state of a `RAGSystem`: the rows of the faiss index in insertion
order, plus the metadata. -/
structure RAGState where
  index : List Vec
  metadata : Metadata
deriving DecidableEq, Repr

/-- Ordering used by the vector index's k-NN search: squared distance
ascending, ties broken by smaller row index (insertion order). -/
def hitLE (a b : Nat × ℚ) : Prop :=
  a.2 < b.2 ∨ (a.2 = b.2 ∧ a.1 ≤ b.1)

instance : DecidableRel hitLE := fun a b => by
  unfold hitLE
  exact inferInstance

/-- Every stored row index paired with its squared Euclidean distance to the
query vector: the candidate set the flat L2 index ranks. -/
def distPairs (rows : List Vec) (q : Vec) : List (Nat × ℚ) :=
  rows.enum.map (fun p => (p.1, sqDist q p.2))

/-- Modelled from the spec: the Vector Index k-NN lookup performed by
`self.index.search` (faiss, external library code — §4.3 of the spec): pair
every stored row with its squared Euclidean distance to the query, sort
ascending by distance with ties broken by insertion order, keep the first
`k`. -/
def indexSearch (rows : List Vec) (q : Vec) (k : Nat) : List (Nat × ℚ) :=
  (List.insertionSort hitLE (distPairs rows q)).take k

/-- Modelled from the spec: faiss pads its fixed-size result arrays with row
index `-1` (plus a sentinel distance) when the index holds fewer than `k`
rows; `RAGSystem.search` filters the padding out with its `idx >= 0` test. -/
def indexSearchPadded (rows : List Vec) (q : Vec) (k : Nat) : List (Int × ℚ) :=
  let hits := (indexSearch rows q k).map (fun p => ((p.1 : Int), p.2))
  hits ++ List.replicate (k - hits.length) (-1, 0)

/-- The distance-to-score conversion in `RAGSystem.search`:
`float(1.0 / (1.0 + distances[0][i]))`. -/
def scoreOfDist (d : ℚ) : ℚ := 1 / (1 + d)

/-- One entry of the list returned by `RAGSystem.search`. -/
structure SearchResult where
  text : String
  document_id : String
  score : ℚ
deriving DecidableEq, Repr

/-- `RAGSystem.search`: embed the query (`encode1`, the external model),
normalize it (`normalizeL2`, external faiss), query the index for `k`
nearest rows, and keep a `{text, document_id, score}` record for every hit
whose row index satisfies `idx >= 0 and idx < len(self.metadata["chunks"])`. -/
def search (encode1 : String → Vec) (normalizeL2 : Vec → Vec) (s : RAGState)
    (query : String) (k : Nat) : List SearchResult :=
  let q := normalizeL2 (encode1 query)
  (indexSearchPadded s.index q k).filterMap (fun p =>
    if p.1 < 0 then none
    else
      (s.metadata.chunks[p.1.toNat]?).map (fun c =>
        { text := c.text, document_id := c.document_id,
          score := scoreOfDist p.2 }))

/-- `RAGSystem.add_document`.  `split` models the external
`RecursiveCharacterTextSplitter.split_text`, `embed` the external
`SentenceTransformer.encode` batch call (fallible: an embedder failure
raises), `normalizeL2` the external `faiss.normalize_L2` applied row-wise;
`doc_id` is the fresh `uuid.uuid4()` and `now` the
`datetime.now().isoformat()` drawn at the call.  The result pairs the state
after the call with the outcome (error raised, or the returned document id);
as in Python, a raise during embedding happens before any mutation, so the
error case carries the unchanged state. -/
def add_document (split : String → List String)
    (embed : List String → Except String (List Vec))
    (normalizeL2 : Vec → Vec)
    (s : RAGState) (document_text summary doc_id now : String) :
    RAGState × Except String String :=
  let chunks := split document_text
  match embed chunks with
  | .error e => (s, .error e)
  | .ok embs =>
    let start_idx := s.metadata.chunks.length
    let newChunks := chunks.enum.map (fun p =>
      ({ text := p.2, document_id := doc_id, chunk_id := start_idx + p.1,
         position := p.1 } : ChunkMeta))
    let docMeta : DocumentMeta :=
      { id := doc_id, summary := summary, timestamp := now,
        chunk_ids := List.range' start_idx chunks.length }
    ({ index := s.index ++ embs.map normalizeL2,
       metadata := { chunks := s.metadata.chunks ++ newChunks,
                     documents := s.metadata.documents ++ [docMeta] } },
     .ok doc_id)

/-- `RAGSystem.get_document_by_id`: first document record with a matching id,
else an explicit absent result. -/
def get_document_by_id (s : RAGState) (doc_id : String) : Option DocumentMeta :=
  s.metadata.documents.find? (fun d => d.id == doc_id)

/-- `RAGSystem.get_all_documents` (the spec's `list_documents`). -/
def get_all_documents (s : RAGState) : List DocumentMeta :=
  s.metadata.documents

/-- `RAGSystem.get_document_chunks` (the spec's `chunks_of`). -/
def get_document_chunks (s : RAGState) (doc_id : String) : List ChunkMeta :=
  s.metadata.chunks.filter (fun c => c.document_id == doc_id)

/-- On-disk image of a corpus data directory: `faiss_index.bin` together with
`document_metadata.json` when the files exist; `none` models a fresh
directory. -/
def Disk : Type := Option (List Vec × Metadata)

/-- `RAGSystem._save`: serialize the index and the metadata as a pair. -/
def saveToDisk (s : RAGState) : Disk := some (s.index, s.metadata)

/-- The load/create branch of `RAGSystem.__init__`: reload the persisted
index/metadata pair when the files exist, otherwise start from an empty flat
index and empty metadata. -/
def initFromDisk (d : Disk) : RAGState :=
  match d with
  | some im => { index := im.1, metadata := im.2 }
  | none => { index := [], metadata := { chunks := [], documents := [] } }

/-- The cross-component invariant of the corpus: the chunk records carry
`chunk_id` values `0, 1, ...` in order (so the i-th record has `chunk_id = i`,
its row index), and the metadata's chunk count equals the index's row count. -/
def chunkIdsOk (s : RAGState) : Prop :=
  s.metadata.chunks.map ChunkMeta.chunk_id = List.range s.metadata.chunks.length ∧
  s.metadata.chunks.length = s.index.length

instance : DecidablePred chunkIdsOk := fun s => by
  unfold chunkIdsOk
  exact inferInstance

/-- The record `RAGSystem.search` builds for a hit at row `p.1` with squared
distance `p.2` (a proof-side bridge: the field defaults `""` are never used on
rows that actually reach the result list, since those have a metadata
record). -/
def resultOf (s : RAGState) (p : Nat × ℚ) : SearchResult :=
  { text := ((s.metadata.chunks[p.1]?).map ChunkMeta.text).getD ""
  , document_id := ((s.metadata.chunks[p.1]?).map ChunkMeta.document_id).getD ""
  , score := scoreOfDist p.2 }

instance : IsTotal (Nat × ℚ) hitLE where
  total a b := by
    unfold hitLE
    rcases lt_trichotomy a.2 b.2 with h | h | h
    · exact Or.inl (Or.inl h)
    · rcases Nat.le_total a.1 b.1 with h1 | h1
      · exact Or.inl (Or.inr ⟨h, h1⟩)
      · exact Or.inr (Or.inr ⟨h.symm, h1⟩)
    · exact Or.inr (Or.inl h)

instance : IsTrans (Nat × ℚ) hitLE where
  trans a b c hab hbc := by
    unfold hitLE at hab hbc ⊢
    rcases hab with h1 | ⟨h1, h1n⟩ <;> rcases hbc with h2 | ⟨h2, h2n⟩
    · exact Or.inl (h1.trans h2)
    · exact Or.inl (lt_of_lt_of_eq h1 h2)
    · exact Or.inl (lt_of_eq_of_lt h1 h2)
    · exact Or.inr ⟨h1.trans h2, h1n.trans h2n⟩

/-- A concrete two-document corpus used to instantiate the theorems. -/
def exampleState : RAGState :=
  RAGState.mk [[(0 : ℚ), 1], [1, 0]]
    (Metadata.mk [ChunkMeta.mk "alpha" "D0" 0 0, ChunkMeta.mk "beta" "D1" 1 1]
      [DocumentMeta.mk "D0" "s0" "t0" [0], DocumentMeta.mk "D1" "s1" "t1" [1]])

/-- A concrete single-string query embedder used to instantiate the theorems. -/
def exampleEncode : String → Vec := fun _ => [1, 0]

/-- A concrete splitter used to instantiate the theorems. -/
def exampleSplit : String → List String := fun t => if t = "" then [] else [t]

/-- A concrete batch embedder used to instantiate the theorems. -/
def exampleEmbed : List String → Except String (List Vec) :=
  fun ts => Except.ok (ts.map (fun _ => [1, 0]))

/-! ## Helper lemmas -/

theorem filterMap_replicate_none {α β : Type} {f : α → Option β} {a : α}
    (h : f a = none) (n : Nat) : (List.replicate n a).filterMap f = [] := by
  induction n with
  | zero => rfl
  | succ m ih => rw [List.replicate_succ, List.filterMap_cons, h, ih]

theorem filterMap_ite_eq_map_filter {α β : Type} (P : α → Prop) [DecidablePred P]
    (g : α → β) (l : List α) :
    (l.filterMap (fun a => if P a then some (g a) else none)) =
      (l.filter (fun a => decide (P a))).map g := by
  induction l with
  | nil => rfl
  | cons a t ih =>
    by_cases h : P a
    · simp [List.filterMap_cons, List.filter_cons, h, ih]
    · simp [List.filterMap_cons, List.filter_cons, h, ih]

theorem sqDist_nonneg (q v : Vec) : 0 ≤ sqDist q v := by
  induction q generalizing v with
  | nil => simp [sqDist]
  | cons a t ih =>
    cases v with
    | nil => simp [sqDist]
    | cons b u =>
      have h1 : (0 : ℚ) ≤ (a - b) ^ 2 := sq_nonneg _
      have h2 := ih u
      simp only [sqDist, List.zipWith_cons_cons, List.sum_cons] at h2 ⊢
      linarith

theorem distPairs_length (rows : List Vec) (q : Vec) :
    (distPairs rows q).length = rows.length := by
  simp [distPairs]

theorem mem_distPairs {rows : List Vec} {q : Vec} {p : Nat × ℚ} :
    p ∈ distPairs rows q ↔
      ∃ h : p.1 < rows.length, p.2 = sqDist q (rows.get ⟨p.1, h⟩) := by
  unfold distPairs
  constructor
  · intro hp
    obtain ⟨pr, hpr, heq⟩ := List.mem_map.mp hp
    obtain ⟨i, v⟩ := pr
    have hget : rows[i]? = some v := List.mem_enum_iff_getElem?.mp hpr
    obtain ⟨hlt, hv⟩ := List.getElem?_eq_some_iff.mp hget
    cases heq
    exact ⟨hlt, by rw [← hv]; rfl⟩
  · rintro ⟨h, hp2⟩
    apply List.mem_map.mpr
    refine ⟨(p.1, rows.get ⟨p.1, h⟩), ?_, ?_⟩
    · exact List.mem_enum_iff_getElem?.mpr (List.getElem?_eq_getElem h)
    · cases p
      simp only at hp2
      simp [hp2]

theorem distPairs_map_fst (rows : List Vec) (q : Vec) :
    (distPairs rows q).map Prod.fst = List.range rows.length := by
  unfold distPairs
  rw [List.map_map]
  exact List.enum_map_fst rows

theorem indexSearch_length (rows : List Vec) (q : Vec) (k : Nat) :
    (indexSearch rows q k).length = min k rows.length := by
  unfold indexSearch
  rw [List.length_take, (List.perm_insertionSort hitLE (distPairs rows q)).length_eq,
    distPairs_length]

theorem indexSearch_pairwise_hitLE (rows : List Vec) (q : Vec) (k : Nat) :
    List.Pairwise hitLE (indexSearch rows q k) :=
  List.Pairwise.sublist (List.take_sublist k _) (List.sorted_insertionSort hitLE _)

theorem indexSearch_subset_distPairs {rows : List Vec} {q : Vec} {k : Nat}
    {p : Nat × ℚ} (hp : p ∈ indexSearch rows q k) : p ∈ distPairs rows q := by
  unfold indexSearch at hp
  have h2 := (List.take_sublist k (List.insertionSort hitLE (distPairs rows q))).subset hp
  exact ((List.perm_insertionSort hitLE (distPairs rows q)).mem_iff).mp h2

theorem indexSearch_nearest {rows : List Vec} {q : Vec} {k : Nat}
    {a b : Nat × ℚ} (ha : a ∈ indexSearch rows q k) (hb : b ∈ distPairs rows q)
    (hnb : b ∉ indexSearch rows q k) : hitLE a b := by
  unfold indexSearch at ha hnb
  have hsort : List.Pairwise hitLE (List.insertionSort hitLE (distPairs rows q)) :=
    List.sorted_insertionSort hitLE _
  have hbl : b ∈ List.insertionSort hitLE (distPairs rows q) :=
    ((List.perm_insertionSort hitLE (distPairs rows q)).mem_iff).mpr hb
  rw [← List.take_append_drop k (List.insertionSort hitLE (distPairs rows q))] at hsort hbl
  have hcross := (List.pairwise_append.mp hsort).2.2
  rcases List.mem_append.mp hbl with h | h
  · exact absurd h hnb
  · exact hcross a ha b h

theorem indexSearch_pairwise_fst_ne (rows : List Vec) (q : Vec) (k : Nat) :
    List.Pairwise (fun a b : Nat × ℚ => a.1 ≠ b.1) (indexSearch rows q k) := by
  have hperm := (List.perm_insertionSort hitLE (distPairs rows q)).map Prod.fst
  rw [distPairs_map_fst] at hperm
  have hnd : ((List.insertionSort hitLE (distPairs rows q)).map Prod.fst).Nodup :=
    hperm.symm.nodup (List.nodup_range _)
  have hnd2 : List.Pairwise (fun a b => a ≠ b)
      ((List.insertionSort hitLE (distPairs rows q)).map Prod.fst) := hnd
  have := List.pairwise_map.mp hnd2
  exact List.Pairwise.sublist (List.take_sublist k _) this

theorem search_body_cast (s : RAGState) (p : Nat × ℚ) :
    (if ((p.1 : Int)) < 0 then none
     else (s.metadata.chunks[((p.1 : Int)).toNat]?).map (fun c =>
       ({ text := c.text, document_id := c.document_id,
          score := scoreOfDist p.2 } : SearchResult))) =
      (if p.1 < s.metadata.chunks.length then some (resultOf s p) else none) := by
  have h0 : ¬ ((p.1 : Int) < 0) := by
    exact Int.not_lt.mpr (Int.ofNat_nonneg p.1)
  rw [if_neg h0, Int.toNat_natCast]
  cases h : s.metadata.chunks[p.1]? with
  | some c =>
    have hlt : p.1 < s.metadata.chunks.length := (List.getElem?_eq_some_iff.mp h).1
    rw [if_pos hlt]
    simp [resultOf, h]
  | none =>
    have hge : s.metadata.chunks.length ≤ p.1 := List.getElem?_eq_none_iff.mp h
    rw [if_neg (Nat.not_lt.mpr hge)]
    rfl

theorem search_eq_filter_map (encode1 : String → Vec) (normalizeL2 : Vec → Vec)
    (s : RAGState) (query : String) (k : Nat) :
    search encode1 normalizeL2 s query k =
      ((indexSearch s.index (normalizeL2 (encode1 query)) k).filter
          (fun p => decide (p.1 < s.metadata.chunks.length))).map (resultOf s) := by
  unfold search indexSearchPadded
  rw [List.filterMap_append, List.filterMap_map,
    filterMap_replicate_none (by norm_num), List.append_nil]
  have hbody : ((fun p : Int × ℚ =>
        if p.1 < 0 then none
        else (s.metadata.chunks[p.1.toNat]?).map (fun c =>
          ({ text := c.text, document_id := c.document_id,
             score := scoreOfDist p.2 } : SearchResult))) ∘
      (fun p : Nat × ℚ => ((p.1 : Int), p.2))) =
      (fun p : Nat × ℚ =>
        if p.1 < s.metadata.chunks.length then some (resultOf s p) else none) := by
    funext p
    exact search_body_cast s p
  rw [hbody, filterMap_ite_eq_map_filter]

theorem search_eq_map (encode1 : String → Vec) (normalizeL2 : Vec → Vec)
    (s : RAGState) (query : String) (k : Nat)
    (hcons : s.index.length = s.metadata.chunks.length) :
    search encode1 normalizeL2 s query k =
      (indexSearch s.index (normalizeL2 (encode1 query)) k).map (resultOf s) := by
  rw [search_eq_filter_map]
  congr 1
  apply List.filter_eq_self.mpr
  intro p hp
  obtain ⟨h, -⟩ := mem_distPairs.mp (indexSearch_subset_distPairs hp)
  simp only [decide_eq_true_eq]
  omega

theorem newChunks_map_chunk_id (cs : List String) (doc_id : String) (start : Nat) :
    (cs.enum.map (fun p =>
      ({ text := p.2, document_id := doc_id, chunk_id := start + p.1,
         position := p.1 } : ChunkMeta))).map ChunkMeta.chunk_id =
      List.range' start cs.length := by
  rw [List.map_map, List.range'_eq_map_range, ← List.enum_map_fst cs, List.map_map]
  rfl

theorem newChunks_map_position (cs : List String) (doc_id : String) (start : Nat) :
    (cs.enum.map (fun p =>
      ({ text := p.2, document_id := doc_id, chunk_id := start + p.1,
         position := p.1 } : ChunkMeta))).map ChunkMeta.position =
      List.range cs.length := by
  rw [List.map_map, ← List.enum_map_fst cs]
  congr 1

theorem newChunks_filter_doc (cs : List String) (doc_id : String) (start : Nat) :
    (cs.enum.map (fun p =>
      ({ text := p.2, document_id := doc_id, chunk_id := start + p.1,
         position := p.1 } : ChunkMeta))).filter
        (fun c => c.document_id == doc_id) =
      cs.enum.map (fun p =>
        ({ text := p.2, document_id := doc_id, chunk_id := start + p.1,
           position := p.1 } : ChunkMeta)) := by
  apply List.filter_eq_self.mpr
  intro c hc
  obtain ⟨p, -, rfl⟩ := List.mem_map.mp hc
  simp

/-! ## Claim theorems -/

/-- Claim C1: on every state satisfying the chunk-id/row invariant, a
successful `add_document` preserves it: the i-th chunk record carries
`chunk_id = i` (contiguous from 0) and the chunk count equals the index row
count; the call appends records numbered `len(chunks_before), ...` in the
same order as it appends rows to the index. -/
theorem add_document_preserves_row_invariant
    (split : String → List String) (embed : List String → Except String (List Vec))
    (normalizeL2 : Vec → Vec)
    (hembed : ∀ ts vs, embed ts = Except.ok vs → vs.length = ts.length)
    (s s' : RAGState) (document_text summary doc_id now d : String)
    (hinv : chunkIdsOk s)
    (hrun : add_document split embed normalizeL2 s document_text summary doc_id now =
      (s', Except.ok d)) :
    chunkIdsOk s' ∧
    ∃ newRecs : List ChunkMeta, ∃ newRows : List Vec,
      s'.metadata.chunks = s.metadata.chunks ++ newRecs ∧
      s'.index = s.index ++ newRows ∧
      newRecs.length = newRows.length ∧
      newRecs.map ChunkMeta.chunk_id =
        List.range' s.metadata.chunks.length newRecs.length := by
  cases hemb : embed (split document_text) with
  | error e =>
    simp [add_document, hemb] at hrun
  | ok embs =>
    simp only [add_document, hemb, Prod.mk.injEq, Except.ok.injEq] at hrun
    obtain ⟨hs, hd⟩ := hrun
    subst hs
    have hlenE : embs.length = (split document_text).length := hembed _ _ hemb
    constructor
    · constructor
      · simp only [List.map_append, hinv.1, newChunks_map_chunk_id,
          List.length_append, List.length_map, List.enum_length]
        rw [List.range_add, List.range'_eq_map_range]
      · simp only [List.length_append, List.length_map, List.enum_length]
        rw [hinv.2, hlenE]
    · refine ⟨_, _, rfl, rfl, ?_, ?_⟩
      · simp [hlenE]
      · rw [newChunks_map_chunk_id]
        simp

/-- Witness for C1 at a concrete corpus and document. -/
theorem add_document_preserves_row_invariant_witness :
    chunkIdsOk
      ((add_document (fun t => if t = "" then [] else [t])
        (fun ts => Except.ok (ts.map (fun _ => ([1, 0] : Vec)))) id
        (RAGState.mk [] (Metadata.mk [] [])) "hello" "sum" "D1" "T1").1) := by
  have h := add_document_preserves_row_invariant
    (fun t => if t = "" then [] else [t])
    (fun ts => Except.ok (ts.map (fun _ => ([1, 0] : Vec)))) id
    (fun ts vs hv => by
      simp only [Except.ok.injEq] at hv
      rw [← hv, List.length_map])
    (RAGState.mk [] (Metadata.mk [] []))
    ((add_document (fun t => if t = "" then [] else [t])
      (fun ts => Except.ok (ts.map (fun _ => ([1, 0] : Vec)))) id
      (RAGState.mk [] (Metadata.mk [] [])) "hello" "sum" "D1" "T1").1)
    "hello" "sum" "D1" "T1" "D1" (by decide) (by rfl)
  exact h.1

/-- Claim C3: when the embedder call raises, `add_document` returns carrying
the unchanged pre-ingest state: same index rows, same chunk records, same
document records (hence `get_all_documents` unchanged), and no document
recorded; the error is propagated. -/
theorem add_document_rolls_back_on_embed_failure
    (split : String → List String) (embed : List String → Except String (List Vec))
    (normalizeL2 : Vec → Vec)
    (s : RAGState) (document_text summary doc_id now e : String)
    (hfail : embed (split document_text) = Except.error e) :
    add_document split embed normalizeL2 s document_text summary doc_id now =
      (s, Except.error e) ∧
    (add_document split embed normalizeL2 s document_text summary doc_id now).1.index =
      s.index ∧
    (add_document split embed normalizeL2 s document_text summary doc_id
      now).1.metadata.chunks = s.metadata.chunks ∧
    get_all_documents
      (add_document split embed normalizeL2 s document_text summary doc_id now).1 =
      get_all_documents s := by
  have h : add_document split embed normalizeL2 s document_text summary doc_id now =
      (s, Except.error e) := by
    simp [add_document, hfail]
  exact ⟨h, by rw [h], by rw [h], by rw [h]⟩

/-- Witness for C3: a concrete failing embedder leaves the concrete corpus
untouched. -/
theorem add_document_rolls_back_on_embed_failure_witness :
    add_document (fun t => [t]) (fun _ => Except.error "embedder down") id
      (RAGState.mk [[(1 : ℚ), 0]]
        (Metadata.mk [ChunkMeta.mk "a" "D0" 0 0] [DocumentMeta.mk "D0" "s" "t" [0]]))
      "hello" "sum" "D1" "T1" =
      (RAGState.mk [[(1 : ℚ), 0]]
        (Metadata.mk [ChunkMeta.mk "a" "D0" 0 0] [DocumentMeta.mk "D0" "s" "t" [0]]),
       Except.error "embedder down") :=
  (add_document_rolls_back_on_embed_failure (fun t => [t])
    (fun _ => Except.error "embedder down") id
    (RAGState.mk [[(1 : ℚ), 0]]
      (Metadata.mk [ChunkMeta.mk "a" "D0" 0 0] [DocumentMeta.mk "D0" "s" "t" [0]]))
    "hello" "sum" "D1" "T1" "embedder down" rfl).1

/-- Claim C5: on text the chunker splits into zero chunks, `add_document`
succeeds: it adds no index rows and no chunk records, appends one document
record with an empty `chunk_ids` list, and returns the fresh document id. -/
theorem add_document_empty_text
    (split : String → List String) (embed : List String → Except String (List Vec))
    (normalizeL2 : Vec → Vec)
    (s : RAGState) (document_text summary doc_id now : String)
    (hsplit : split document_text = [])
    (hembed0 : embed [] = Except.ok []) :
    add_document split embed normalizeL2 s document_text summary doc_id now =
      (RAGState.mk s.index
        (Metadata.mk s.metadata.chunks
          (s.metadata.documents ++ [DocumentMeta.mk doc_id summary now []])),
       Except.ok doc_id) := by
  simp [add_document, hsplit, hembed0]

/-- Witness for C5: ingesting the empty string on a concrete corpus. -/
theorem add_document_empty_text_witness :
    add_document (fun t => if t = "" then [] else [t])
      (fun ts => Except.ok (ts.map (fun _ => ([1, 0] : Vec)))) id
      (RAGState.mk [] (Metadata.mk [] [])) "" "sum" "D1" "T1" =
      (RAGState.mk [] (Metadata.mk [] [DocumentMeta.mk "D1" "sum" "T1" []]),
       Except.ok "D1") :=
  add_document_empty_text (fun t => if t = "" then [] else [t])
    (fun ts => Except.ok (ts.map (fun _ => ([1, 0] : Vec)))) id
    (RAGState.mk [] (Metadata.mk [] [])) "" "sum" "D1" "T1" rfl rfl

/-- Claim C2: on a consistent corpus, for every query and every k > 0,
`search` returns exactly `min k n` results (n the stored row count), namely
the images of the index search hits, which are genuine stored rows ordered
ascending by squared Euclidean distance to the normalized query embedding
and are nearest among all stored rows; an empty corpus yields the empty
list rather than an error. -/
theorem search_returns_k_nearest (encode1 : String → Vec) (normalizeL2 : Vec → Vec)
    (s : RAGState) (query : String) (k : Nat) (_hk : 0 < k)
    (hcons : s.index.length = s.metadata.chunks.length) :
    (search encode1 normalizeL2 s query k).length = min k s.index.length ∧
    search encode1 normalizeL2 s query k =
      (indexSearch s.index (normalizeL2 (encode1 query)) k).map (resultOf s) ∧
    List.Pairwise (fun a b : Nat × ℚ => a.2 ≤ b.2)
      (indexSearch s.index (normalizeL2 (encode1 query)) k) ∧
    (∀ p ∈ indexSearch s.index (normalizeL2 (encode1 query)) k,
      ∃ h : p.1 < s.index.length,
        p.2 = sqDist (normalizeL2 (encode1 query)) (s.index.get ⟨p.1, h⟩)) ∧
    (∀ p ∈ indexSearch s.index (normalizeL2 (encode1 query)) k,
      ∀ j, ∀ hj : j < s.index.length,
        (j, sqDist (normalizeL2 (encode1 query)) (s.index.get ⟨j, hj⟩)) ∉
          indexSearch s.index (normalizeL2 (encode1 query)) k →
        p.2 ≤ sqDist (normalizeL2 (encode1 query)) (s.index.get ⟨j, hj⟩)) ∧
    (s.index = [] → search encode1 normalizeL2 s query k = []) := by
  refine ⟨?_, search_eq_map _ _ _ _ _ hcons, ?_, ?_, ?_, ?_⟩
  · rw [search_eq_map _ _ _ _ _ hcons, List.length_map, indexSearch_length]
  · refine List.Pairwise.imp ?_ (indexSearch_pairwise_hitLE _ _ _)
    intro a b hab
    unfold hitLE at hab
    rcases hab with h | ⟨h, -⟩
    · exact le_of_lt h
    · exact le_of_eq h
  · intro p hp
    exact mem_distPairs.mp (indexSearch_subset_distPairs hp)
  · intro p hp j hj hnot
    have hbmem : (j, sqDist (normalizeL2 (encode1 query)) (s.index.get ⟨j, hj⟩)) ∈
        distPairs s.index (normalizeL2 (encode1 query)) :=
      mem_distPairs.mpr ⟨hj, rfl⟩
    have hle := indexSearch_nearest hp hbmem hnot
    unfold hitLE at hle
    rcases hle with h | ⟨h, -⟩
    · exact le_of_lt h
    · exact le_of_eq h
  · intro hemp
    rw [search_eq_map _ _ _ _ _ hcons]
    have h0 : indexSearch s.index (normalizeL2 (encode1 query)) k = [] := by
      apply List.eq_nil_of_length_eq_zero
      rw [indexSearch_length, hemp]
      simp
    rw [h0]
    rfl

/-- Witness for C2 at a concrete two-row corpus with k = 1. -/
theorem search_returns_k_nearest_witness :
    (search exampleEncode id exampleState "q" 1).length = min 1 exampleState.index.length :=
  (search_returns_k_nearest exampleEncode id exampleState "q" 1 (by decide) rfl).1

/-- Claim C4 (amended): a row index returned by the vector index with no
matching metadata chunk record is silently omitted from the results;
`search` returns the remaining results normally and raises no error. -/
theorem search_silently_skips_missing_metadata (encode1 : String → Vec)
    (normalizeL2 : Vec → Vec) (s : RAGState) (query : String) (k : Nat) :
    search encode1 normalizeL2 s query k =
      ((indexSearch s.index (normalizeL2 (encode1 query)) k).filter
          (fun p => decide (p.1 < s.metadata.chunks.length))).map (resultOf s) :=
  search_eq_filter_map encode1 normalizeL2 s query k

/-- Counterexample to C4 as stated: on a corpus whose index holds one row
but whose metadata holds no chunk record, the index search returns row 0,
yet `search` returns the plain empty list — no error is surfaced, the row is
silently dropped. -/
theorem search_missing_metadata_counterexample :
    indexSearch [[(1 : ℚ), 0]] (id (exampleEncode "anything")) 1 = [(0, 0)] ∧
    search exampleEncode id (RAGState.mk [[(1 : ℚ), 0]] (Metadata.mk [] []))
      "anything" 1 = [] := by
  constructor
  · have hq : sqDist [(1 : ℚ), 0] [(1 : ℚ), 0] = 0 := by
      simp [sqDist]
    unfold indexSearch distPairs
    simp [exampleEncode, List.enum, List.enumFrom, hq, List.insertionSort,
      List.orderedInsert]
  · decide

/-- Claim C6: every reported score equals `1 / (1 + d)` where `d` is the
(nonnegative squared Euclidean) distance of the hit; the score at distance 0
is exactly 1, the score is strictly decreasing in the distance, and it is
strictly positive for every distance. -/
theorem search_scores (encode1 : String → Vec) (normalizeL2 : Vec → Vec)
    (s : RAGState) (query : String) (k : Nat)
    (hcons : s.index.length = s.metadata.chunks.length) :
    (∀ r ∈ search encode1 normalizeL2 s query k,
      ∃ p ∈ indexSearch s.index (normalizeL2 (encode1 query)) k,
        r.score = scoreOfDist p.2 ∧ 0 ≤ p.2) ∧
    scoreOfDist 0 = 1 ∧
    (∀ d1 d2 : ℚ, 0 ≤ d1 → d1 < d2 → scoreOfDist d2 < scoreOfDist d1) ∧
    (∀ d : ℚ, 0 ≤ d → 0 < scoreOfDist d) := by
  refine ⟨?_, by norm_num [scoreOfDist], ?_, ?_⟩
  · intro r hr
    rw [search_eq_map _ _ _ _ _ hcons] at hr
    obtain ⟨p, hp, rfl⟩ := List.mem_map.mp hr
    obtain ⟨h, hp2⟩ := mem_distPairs.mp (indexSearch_subset_distPairs hp)
    exact ⟨p, hp, rfl, hp2 ▸ sqDist_nonneg _ _⟩
  · intro d1 d2 h0 hlt
    unfold scoreOfDist
    have h1 : (0 : ℚ) < 1 + d1 := by linarith
    exact one_div_lt_one_div_of_lt h1 (by linarith)
  · intro d h0
    unfold scoreOfDist
    exact one_div_pos.mpr (by linarith)

/-- Witness for C6 at the concrete corpus. -/
theorem search_scores_witness : scoreOfDist 0 = 1 :=
  (search_scores exampleEncode id exampleState "q" 2 rfl).2.1

/-- Claim C7: saving a corpus and reloading it from the same data directory
yields an observationally identical corpus: the very same state, hence the
same `get_all_documents`, the same `get_document_chunks` for every document
id, and the same `search` results for every query and k. -/
theorem save_load_roundtrip (s : RAGState) :
    initFromDisk (saveToDisk s) = s ∧
    get_all_documents (initFromDisk (saveToDisk s)) = get_all_documents s ∧
    (∀ doc_id, get_document_chunks (initFromDisk (saveToDisk s)) doc_id =
      get_document_chunks s doc_id) ∧
    (∀ encode1 normalizeL2 query k,
      search encode1 normalizeL2 (initFromDisk (saveToDisk s)) query k =
        search encode1 normalizeL2 s query k) := by
  have h : initFromDisk (saveToDisk s) = s := rfl
  exact ⟨h, by rw [h], fun doc_id => by rw [h], fun e n q k => by rw [h]⟩

/-- Claim C8: after a successful ingest with a fresh document id,
`get_document_chunks` returns exactly the freshly appended chunk records, in
order, with `position` values `0, 1, ..., n-1` where n is the chunk count of
the ingested text. -/
theorem chunks_of_after_ingest
    (split : String → List String) (embed : List String → Except String (List Vec))
    (normalizeL2 : Vec → Vec)
    (s s' : RAGState) (document_text summary doc_id now d : String)
    (hfresh : ∀ c ∈ s.metadata.chunks, c.document_id ≠ doc_id)
    (hrun : add_document split embed normalizeL2 s document_text summary doc_id now =
      (s', Except.ok d)) :
    get_document_chunks s' doc_id =
      (split document_text).enum.map (fun p =>
        ({ text := p.2, document_id := doc_id,
           chunk_id := s.metadata.chunks.length + p.1,
           position := p.1 } : ChunkMeta)) ∧
    (get_document_chunks s' doc_id).map ChunkMeta.position =
      List.range (split document_text).length ∧
    (get_document_chunks s' doc_id).length = (split document_text).length := by
  cases hemb : embed (split document_text) with
  | error e => simp [add_document, hemb] at hrun
  | ok embs =>
    simp only [add_document, hemb, Prod.mk.injEq, Except.ok.injEq] at hrun
    obtain ⟨hs, hd⟩ := hrun
    subst hs
    have h1 : s.metadata.chunks.filter (fun c => c.document_id == doc_id) = [] := by
      apply List.filter_eq_nil_iff.mpr
      intro c hc
      simp [hfresh c hc]
    unfold get_document_chunks
    simp only [List.filter_append, h1, newChunks_filter_doc, List.nil_append]
    refine ⟨trivial, ?_, ?_⟩
    · rw [newChunks_map_position]
    · simp

/-- Witness for C8: ingesting a one-chunk document into the concrete corpus. -/
theorem chunks_of_after_ingest_witness :
    get_document_chunks
      (add_document exampleSplit exampleEmbed id exampleState
        "hello" "sum" "D2" "T2").1 "D2" =
      (exampleSplit "hello").enum.map (fun p =>
        ({ text := p.2, document_id := "D2",
           chunk_id := exampleState.metadata.chunks.length + p.1,
           position := p.1 } : ChunkMeta)) :=
  (chunks_of_after_ingest exampleSplit exampleEmbed id exampleState
    (add_document exampleSplit exampleEmbed id exampleState
      "hello" "sum" "D2" "T2").1
    "hello" "sum" "D2" "T2" "D2" (by decide) (by rfl)).1

/-- Claim C9: equal-distance hits appear in insertion order (smaller row
index first) in the index search ranking, so search over an unchanged corpus
is deterministic. -/
theorem indexSearch_stable_tiebreak (rows : List Vec) (q : Vec) (k : Nat) :
    List.Pairwise (fun a b : Nat × ℚ => a.2 = b.2 → a.1 < b.1)
      (indexSearch rows q k) := by
  have h1 := indexSearch_pairwise_hitLE rows q k
  have h2 := indexSearch_pairwise_fst_ne rows q k
  refine List.Pairwise.imp ?_ (h1.and h2)
  intro a b hab heq
  obtain ⟨hle, hne⟩ := hab
  unfold hitLE at hle
  rcases hle with h | ⟨-, h⟩
  · exact absurd heq (ne_of_lt h)
  · exact lt_of_le_of_ne h hne

/-- Claim C10: `get_document_chunks` for a document id owned by no stored
chunk returns the empty list — no error, no distinguished not-found value. -/
theorem get_document_chunks_unknown_id (s : RAGState) (doc_id : String)
    (h : ∀ c ∈ s.metadata.chunks, c.document_id ≠ doc_id) :
    get_document_chunks s doc_id = [] := by
  unfold get_document_chunks
  apply List.filter_eq_nil_iff.mpr
  intro c hc
  simp [h c hc]

/-- Witness for C10: an id owned by no chunk of the concrete corpus. -/
theorem get_document_chunks_unknown_id_witness :
    get_document_chunks exampleState "missing" = [] :=
  get_document_chunks_unknown_id exampleState "missing" (by decide)

end RAG
